import Mathlib

/-!
Verification development for the TriCore instruction-selection core
(lib/Target/TriCore/TriCoreISelDAGToDAG.cpp).

The development shallowly embeds the two engines of that file:

* the addressing-mode matcher (MatchWrapper, MatchAddressBase, MatchAddress),
  modelled as pure functions threading the TriCoreISelAddressMode record
  explicitly; the C++ functions return true on FAILURE and mutate the record
  by reference, so each Lean function returns the pair
  (final state of the record, returned bool);
* the constant materializer (SelectConstant with helpers getFFS,
  getNumSetBits, getNumConsecutiveOnes, ipow), modelled as a pure function
  from the constant node's width class and raw bits to the machine node it
  creates.

Machine integers are modelled as Nat/Int with explicit truncation where the
C++ width matters.
-/

namespace TriCore

/-- The operand wrapped by a TriCoreISD::Wrapper node: either a
GlobalAddressSDNode (carrying the global plus its embedded byte offset,
the only case MatchWrapper inspects) or any other symbol-like node
(external symbol, block address, constant pool, jump table). -/
inductive WrappedOp where
  | globalAddr (gv : Nat) (off : Int)
  | otherSym (id : Nat)
deriving DecidableEq, Repr

/-- SelectionDAG value nodes, restricted to the operation kinds
MatchAddress dispatches on; every other node is an opaque
register-valued node (constructor other). A constant node carries its
sign-extended value (getSExtValue). -/
inductive SDValue where
  | const (v : Int)
  | frameIndex (fi : Int)
  | wrapper (op : WrappedOp)
  | add (l r : SDValue)
  | or (l r : SDValue)
  | other (id : Nat)
deriving DecidableEq, Repr

/-- The BaseType tag of TriCoreISelAddressMode. -/
inductive TCBaseType where
  | RegBase
  | FrameIndexBase
deriving DecidableEq, Repr

/-- TriCoreISelAddressMode. Base.Reg is an SDValue whose null state is
modelled by Option; GV/CP/BlockAddr/ES are pointers modelled by Option
over opaque identities. The C++ constructor leaves Base.FrameIndex
uninitialized behind the RegBase tag; the model fixes it to 0, which no
operation reads while the tag is RegBase. -/
structure TriCoreISelAddressMode where
  BaseType : TCBaseType
  BaseReg : Option SDValue
  BaseFrameIndex : Int
  Disp : Int
  GV : Option Nat
  CP : Option Nat
  BlockAddr : Option Nat
  ES : Option Nat
  JT : Int
  Align : Nat
deriving DecidableEq, Repr

/-- The default-constructed addressing mode (the C++ constructor). -/
def initAM : TriCoreISelAddressMode :=
  { BaseType := .RegBase, BaseReg := none, BaseFrameIndex := 0, Disp := 0,
    GV := none, CP := none, BlockAddr := none, ES := none, JT := -1, Align := 0 }

/-- hasSymbolicDisplacement: GV, CP, ES non-null or JT set, in source order. -/
def TriCoreISelAddressMode.hasSymbolicDisplacement
    (am : TriCoreISelAddressMode) : Bool :=
  am.GV.isSome || am.CP.isSome || am.ES.isSome || am.JT != -1

/-- MatchWrapper, applied to the operand 0 of a TriCoreISD::Wrapper node.
Returns the final state of the by-reference addressing mode together with
the C++ return value (true means failure). Fails without mutation when a
symbol is already present; otherwise records a GlobalAddressSDNode operand
(global plus offset added to Disp) and succeeds, or succeeds without
mutation for any other wrapped operand. -/
def MatchWrapper (op : WrappedOp) (am : TriCoreISelAddressMode) :
    TriCoreISelAddressMode × Bool :=
  if am.hasSymbolicDisplacement then (am, true)
  else
    match op with
    | .globalAddr gv off => ({ am with GV := some gv, Disp := am.Disp + off }, false)
    | .otherSym _ => (am, false)

/-- MatchAddressBase: claim the node as the register base if the base slot
is still free, otherwise fail without mutation. -/
def MatchAddressBase (N : SDValue) (am : TriCoreISelAddressMode) :
    TriCoreISelAddressMode × Bool :=
  if am.BaseType ≠ TCBaseType.RegBase ∨ am.BaseReg.isSome then (am, true)
  else ({ am with BaseType := .RegBase, BaseReg := some N }, false)

/-- MatchAddress. The parameter mvz is the external
SelectionDAG::MaskedValueIsZero oracle (first argument the value node,
second the sign-extended constant mask), which lives outside this file's
source. The ADD case snapshots the mode, tries left-then-right, restores,
tries right-then-left, restores, and falls through to MatchAddressBase;
the OR case speculatively matches the left operand and folds the constant
into Disp only when the match succeeded, picked up no GV, and the oracle
proves the masked bits clear, restoring the snapshot otherwise. -/
def MatchAddress (mvz : SDValue → Int → Bool) :
    SDValue → TriCoreISelAddressMode → TriCoreISelAddressMode × Bool
  | SDValue.const v, am => ({ am with Disp := am.Disp + v }, false)
  | SDValue.wrapper op, am =>
      let r := MatchWrapper op am
      if r.2 = false then (r.1, false)
      else MatchAddressBase (SDValue.wrapper op) r.1
  | SDValue.frameIndex fi, am =>
      if am.BaseType = TCBaseType.RegBase ∧ am.BaseReg = none then
        ({ am with BaseType := .FrameIndexBase, BaseFrameIndex := fi }, false)
      else MatchAddressBase (SDValue.frameIndex fi) am
  | SDValue.add l r, am =>
      let res1 := MatchAddress mvz l am
      let res1' := if res1.2 then res1 else MatchAddress mvz r res1.1
      if res1.2 = false ∧ res1'.2 = false then (res1'.1, false)
      else
        let res2 := MatchAddress mvz r am
        let res2' := if res2.2 then res2 else MatchAddress mvz l res2.1
        if res2.2 = false ∧ res2'.2 = false then (res2'.1, false)
        else MatchAddressBase (SDValue.add l r) am
  | SDValue.or l r, am =>
      match r with
      | SDValue.const c =>
          let res := MatchAddress mvz l am
          if res.2 = false ∧ res.1.GV = none ∧ mvz l c = true then
            ({ res.1 with Disp := res.1.Disp + c }, false)
          else MatchAddressBase (SDValue.or l r) am
      | _ => MatchAddressBase (SDValue.or l r) am
  | SDValue.other id, am => MatchAddressBase (SDValue.other id) am

/-- The fields of the addressing mode that no operation of the matcher
ever writes (CP, ES, JT, BlockAddr, Align) agree between two modes. -/
def sameSym (a b : TriCoreISelAddressMode) : Prop :=
  b.CP = a.CP ∧ b.ES = a.ES ∧ b.JT = a.JT ∧ b.BlockAddr = a.BlockAddr ∧
    b.Align = a.Align

/-- The exact integer sum of an all-constant add tree, or none when the
tree is not built purely from ISD::ADD over constant leaves. -/
def constSum : SDValue → Option Int
  | SDValue.const v => some v
  | SDValue.add l r =>
      match constSum l, constSum r with
      | some a, some b => some (a + b)
      | _, _ => none
  | _ => none

/-- Add trees over exactly one non-constant leaf (a register-valued node
or a frame-index node) together with any number of integer-constant
leaves, in any associative grouping. The second component is the lone
non-constant leaf and the third the sum of all constant leaves. -/
inductive OneBaseTree : SDValue → SDValue → Int → Prop where
  | base_reg : ∀ id : Nat,
      OneBaseTree (SDValue.other id) (SDValue.other id) 0
  | base_fi : ∀ fi : Int,
      OneBaseTree (SDValue.frameIndex fi) (SDValue.frameIndex fi) 0
  | addL : ∀ (l r b : SDValue) (s c : Int), OneBaseTree l b s →
      constSum r = some c → OneBaseTree (SDValue.add l r) b (s + c)
  | addR : ∀ (l r b : SDValue) (s c : Int), constSum l = some c →
      OneBaseTree r b s → OneBaseTree (SDValue.add l r) b (s + c)

/-- How the matcher records the lone non-constant leaf in the mode: a
frame-index leaf claims the frame slot, anything else the register base. -/
def setBase (b : SDValue) (am : TriCoreISelAddressMode) :
    TriCoreISelAddressMode :=
  match b with
  | SDValue.frameIndex fi =>
      { am with BaseType := .FrameIndexBase, BaseFrameIndex := fi }
  | _ => { am with BaseType := .RegBase, BaseReg := some b }

/-- Sign-extension of the low w bits of a natural number, as an integer
(models C truncating casts such as int16_t and APInt getSExtValue). -/
def sext (w : Nat) (n : Nat) : Int :=
  let m := n % 2 ^ w
  if m < 2 ^ (w - 1) then (m : Int) else (m : Int) - 2 ^ w

/-- Loop body of getFFS: scan for the least significant set bit, returning
its 1-based index. The C loop is bounded by the 32-bit width of the
argument; fuel 33 exceeds that bound, so it never runs out on inputs
below 2 to the 32. -/
def ffsGo : Nat → Nat → Nat → Nat
  | 0, _, _ => 0
  | f + 1, v, idx => if v % 2 = 1 then idx else ffsGo f (v / 2) (idx + 1)

/-- getFFS: one plus the index of the least significant set bit, zero for
a zero argument. -/
def getFFS (v : Nat) : Nat :=
  if v = 0 then 0 else ffsGo 33 v 1

/-- getNumSetBits: the source's parallel 32-bit population count. All
intermediate values are unsigned 32-bit; the one step that can exceed
32 bits (the multiply) is truncated explicitly. The first subtraction
never underflows because the subtrahend is at most v shifted right. -/
def getNumSetBits (v : Nat) : Nat :=
  let v0 := v % 4294967296
  let v1 := v0 - ((v0 >>> 1) &&& 0x55555555)
  let v2 := (v1 &&& 0x33333333) + ((v1 >>> 2) &&& 0x33333333)
  ((((v2 + (v2 >>> 4)) &&& 0xF0F0F0F) * 0x1010101) % 4294967296) >>> 24

/-- Loop of getNumConsecutiveOnes on the 32-bit two's-complement bit
pattern: while the value is non-zero, and it with its own left shift
(truncated to 32 bits) and count the iterations. The iteration count is
the longest run of consecutive set bits, at most 32 for a 32-bit value,
so fuel 33 never runs out on inputs below 2 to the 32. -/
def consecGo : Nat → Nat → Nat
  | 0, _ => 0
  | f + 1, x => if x = 0 then 0 else consecGo f (x &&& ((x <<< 1) % 4294967296)) + 1

/-- getNumConsecutiveOnes: length of the longest run of consecutive set
bits of the 32-bit argument. -/
def getNumConsecutiveOnes (x : Nat) : Nat :=
  consecGo 33 (x % 4294967296)

/-- ipow: the source's loop computing 2 to the base by repeated doubling. -/
def ipow : Nat → Nat
  | 0 => 1
  | b + 1 => ipow b * 2

/-- The three add-immediate variants a move-high chain can end with. -/
inductive AddKind where
  | ADDsrc
  | ADDrc
  | ADDIrlc
deriving DecidableEq, Repr

/-- The machine node (or node chain) SelectConstant returns. imask is a
single IMASKrcpw node with operands (value, pos, width); mov / movu /
movh are single MOVrlc / MOVUrlc / MOVHrlc nodes carrying one immediate;
addChain is an ADD variant whose first operand is a MOVHrlc node carrying
hi and whose immediate is lo; fallback is delegation to SelectCode; undef
is the path that returns the uninitialized Move variable (unreachable for
well-formed 32-bit inputs). -/
inductive SelResult where
  | imask (value pos width : Nat)
  | mov (v : Int)
  | movu (v : Int)
  | movh (v : Int)
  | addChain (kind : AddKind) (hi : Int) (lo : Int)
  | fallback
  | undef
deriving DecidableEq, Repr

/-- The hiShift computation (source lines 442-447): subtract the
sign-extended low 16 bits from the signed value, arithmetic-shift right
by 16, and normalize a negative result into the unsigned 16-bit range. -/
def hiShiftVal (ImmSVal : Int) (ImmLo : Nat) : Int :=
  let ImmLo_ext64 : Int := sext 16 ImmLo
  let hi := (ImmSVal - ImmLo_ext64) >>> (16 : Nat)
  if hi < 0 then 65536 + hi else hi

/-- The narrow (32-bit) arm of SelectConstant (source lines 429-481).
ImmSLo translates the C expression (ImmSVal & LoMask) - 65536, whose
bitwise and of a two's-complement value with 0xffff is the nonnegative
residue modulo 2 to the 16 and whose unsigned-wrapping subtraction
reinterpreted as int64 is an exact integer subtraction. -/
def selectNarrow (ImmVal : Nat) (ImmSVal : Int) : SelResult :=
  let ImmLo := ImmVal &&& 0xffff
  let ImmSLo : Int := ImmSVal % 65536 - 65536
  let ImmHi := ImmVal &&& 0xffff0000
  let hiShift := hiShiftVal ImmSVal ImmLo
  if ImmHi = 0 ∧ ImmLo ≠ 0 then
    if 0 ≤ ImmSVal ∧ ImmSVal < 32768 then SelResult.mov ImmVal
    else if 32768 ≤ ImmSVal ∧ ImmSVal < 65536 then SelResult.movu ImmVal
    else SelResult.undef
  else if ImmHi ≠ 0 ∧ ImmLo = 0 then SelResult.movh hiShift
  else if ImmHi = 0 ∧ ImmLo = 0 then SelResult.mov hiShift
  else
    if -32768 ≤ ImmSVal ∧ ImmSVal < 0 then SelResult.mov ImmSVal
    else if (-8 ≤ ImmSLo ∧ ImmSLo < 8) ∨ ImmLo < 8 then
      SelResult.addChain AddKind.ADDsrc hiShift ImmLo
    else if 8 ≤ ImmLo ∧ ImmLo < 256 then
      SelResult.addChain AddKind.ADDrc hiShift ImmLo
    else
      SelResult.addChain AddKind.ADDIrlc hiShift ImmLo

/-- The 64-bit arm of SelectConstant (source lines 354-422): zero gets a
zero-parameter IMASK; negative values or values with both 32-bit halves
non-zero delegate; a single non-zero half must be one contiguous run of
set bits and is encoded as a single IMASKrcpw, subject to the low-half
4-bit value-field limit respectively the high-half pos plus width limit.
If no branch returns (impossible for a non-zero value whose halves are
both zero), control falls through to the narrow code, as in the source. -/
def selectI64 (ImmVal : Nat) (ImmSVal : Int) : SelResult :=
  let lowerByte := ImmVal &&& 0xffffffff
  let higherByte := ImmVal >>> 32
  let width := 0
  if ImmVal = 0 then SelResult.imask 0 0 0
  else if ImmSVal < 0 ∨ (higherByte ≠ 0 ∧ lowerByte ≠ 0) then SelResult.fallback
  else if higherByte = 0 ∧ lowerByte ≠ 0 then
    let posLSB := getFFS lowerByte - 1
    let numSetBits := getNumSetBits lowerByte
    let numConsecBits := getNumConsecutiveOnes lowerByte
    if numSetBits ≠ numConsecBits then SelResult.fallback
    else if numConsecBits > 4 then SelResult.fallback
    else SelResult.imask (ipow numConsecBits - 1) posLSB width
  else if higherByte ≠ 0 ∧ lowerByte = 0 then
    let posLSB := getFFS higherByte - 1
    let numSetBits := getNumSetBits higherByte
    let numConsecBits := getNumConsecutiveOnes higherByte
    if numSetBits ≠ numConsecBits then SelResult.fallback
    else if posLSB + numConsecBits > 31 then SelResult.fallback
    else SelResult.imask 0 posLSB numConsecBits
  else selectNarrow ImmVal ImmSVal

/-- SelectConstant on a constant node of value type i64 (isI64 true) or
i32, given the raw bits of the constant. ImmVal is getZExtValue and
ImmSVal getSExtValue of the node's APInt. -/
def SelectConstant (isI64 : Bool) (bits : Nat) : SelResult :=
  let ImmVal := bits
  let ImmSVal := sext (if isI64 then 64 else 32) bits
  if isI64 then selectI64 ImmVal ImmSVal else selectNarrow ImmVal ImmSVal

/-- Modelled from the spec: the evaluation semantics of the IMASKrcpw
masked-insert instruction, whose target description (TriCoreInstrInfo.td)
is not part of src/. Per the spec (sections 6 and 8 and the glossary),
the instruction materializes a 64-bit register pair whose high word is
the field mask, the run of width set bits starting at bit pos, and whose
low word is the 4-bit value operand shifted to bit pos; both words are
32 bits wide. -/
def imaskEval (value pos width : Nat) : Nat :=
  (((2 ^ width - 1) <<< pos) % 2 ^ 32) * 2 ^ 32 + (value <<< pos) % 2 ^ 32

set_option maxRecDepth 10000

example :
    MatchAddress (fun _ _ => false)
      (SDValue.add (SDValue.const 4)
        (SDValue.add (SDValue.other 7) (SDValue.const (-2)))) initAM =
    ({ initAM with Disp := 2, BaseReg := some (SDValue.other 7) }, false) := by
  decide

example :
    MatchAddress (fun _ _ => false)
      (SDValue.add (SDValue.other 1) (SDValue.other 2)) initAM =
    ({ initAM with
        BaseReg := some (SDValue.add (SDValue.other 1) (SDValue.other 2)) },
      false) := by
  decide

theorem sameSym_refl (a : TriCoreISelAddressMode) : sameSym a a :=
  ⟨rfl, rfl, rfl, rfl, rfl⟩

theorem sameSym_trans {a b c : TriCoreISelAddressMode}
    (h1 : sameSym a b) (h2 : sameSym b c) : sameSym a c := by
  obtain ⟨x1, x2, x3, x4, x5⟩ := h1
  obtain ⟨y1, y2, y3, y4, y5⟩ := h2
  exact ⟨y1.trans x1, y2.trans x2, y3.trans x3, y4.trans x4, y5.trans x5⟩

theorem MatchAddressBase_fail (N : SDValue) (am : TriCoreISelAddressMode) :
    (MatchAddressBase N am).2 = true → (MatchAddressBase N am).1 = am := by
  unfold MatchAddressBase
  split
  · intro _; rfl
  · intro h; simp at h

theorem MatchAddressBase_sameSym (N : SDValue) (am : TriCoreISelAddressMode) :
    sameSym am (MatchAddressBase N am).1 := by
  unfold MatchAddressBase
  split
  · exact sameSym_refl am
  · exact ⟨rfl, rfl, rfl, rfl, rfl⟩

theorem MatchAddressBase_GV (N : SDValue) (am : TriCoreISelAddressMode) :
    (MatchAddressBase N am).1.GV = am.GV := by
  unfold MatchAddressBase
  split
  · rfl
  · rfl

theorem MatchWrapper_fail (op : WrappedOp) (am : TriCoreISelAddressMode) :
    (MatchWrapper op am).2 = true → (MatchWrapper op am).1 = am := by
  unfold MatchWrapper
  split
  · intro _; rfl
  · cases op <;> intro h <;> simp at h

theorem MatchWrapper_sameSym (op : WrappedOp) (am : TriCoreISelAddressMode) :
    sameSym am (MatchWrapper op am).1 := by
  unfold MatchWrapper
  split
  · exact sameSym_refl am
  · cases op
    · exact ⟨rfl, rfl, rfl, rfl, rfl⟩
    · exact sameSym_refl am

/-- A failing MatchAddress call leaves the addressing mode exactly as it
was at entry: all failure paths either return before mutating or restore
the snapshot before falling through to MatchAddressBase, which itself
fails without mutating. -/
theorem MatchAddress_fail_eq (mvz : SDValue → Int → Bool) (N : SDValue)
    (am : TriCoreISelAddressMode) :
    (MatchAddress mvz N am).2 = true → (MatchAddress mvz N am).1 = am := by
  cases N with
  | const v => intro h; simp [MatchAddress] at h
  | wrapper op =>
      simp only [MatchAddress]
      cases hw : (MatchWrapper op am).2 with
      | false => simp [hw]
      | true =>
          simp only [hw, Bool.true_eq_false, if_false]
          intro h
          rw [MatchAddressBase_fail _ _ h, MatchWrapper_fail _ _ hw]
  | frameIndex fi =>
      simp only [MatchAddress]
      split
      · intro h; simp at h
      · exact MatchAddressBase_fail _ _
  | add l r =>
      simp only [MatchAddress]
      cases h1 : (MatchAddress mvz l am).2 with
      | false =>
          simp only [h1, Bool.false_eq_true, if_false]
          cases h2 : (MatchAddress mvz r (MatchAddress mvz l am).1).2 with
          | false => simp [h2]
          | true =>
              simp only [h2, Bool.true_eq_false, and_false, if_false]
              cases h3 : (MatchAddress mvz r am).2 with
              | false =>
                  simp only [h3, Bool.false_eq_true, if_false]
                  cases h4 : (MatchAddress mvz l (MatchAddress mvz r am).1).2 with
                  | false => simp [h4]
                  | true =>
                      simp only [h4, Bool.true_eq_false, and_false, if_false]
                      exact MatchAddressBase_fail _ _
              | true =>
                  simp only [h3]
                  simp only [Bool.true_eq_false, false_and, if_false, if_true]
                  exact MatchAddressBase_fail _ _
      | true =>
          simp only [h1, Bool.true_eq_false, false_and, if_false, if_true]
          cases h3 : (MatchAddress mvz r am).2 with
          | false =>
              simp only [h3, Bool.false_eq_true, if_false]
              cases h4 : (MatchAddress mvz l (MatchAddress mvz r am).1).2 with
              | false => simp [h4]
              | true =>
                  simp only [h4, Bool.true_eq_false, and_false, if_false]
                  exact MatchAddressBase_fail _ _
          | true =>
              simp only [h3, Bool.true_eq_false, false_and, if_false, if_true]
              exact MatchAddressBase_fail _ _
  | or l r =>
      cases r with
      | const c =>
          simp only [MatchAddress]
          split
          · intro h; simp at h
          · exact MatchAddressBase_fail _ _
      | frameIndex fi => simp only [MatchAddress]; exact MatchAddressBase_fail _ _
      | wrapper op => simp only [MatchAddress]; exact MatchAddressBase_fail _ _
      | add a b => simp only [MatchAddress]; exact MatchAddressBase_fail _ _
      | or a b => simp only [MatchAddress]; exact MatchAddressBase_fail _ _
      | other id => simp only [MatchAddress]; exact MatchAddressBase_fail _ _
  | other id =>
      simp only [MatchAddress]
      exact MatchAddressBase_fail _ _

theorem MatchWrapper_symSet (op : WrappedOp) (am : TriCoreISelAddressMode)
    (h : am.hasSymbolicDisplacement = true) : MatchWrapper op am = (am, true) := by
  unfold MatchWrapper
  simp [h]

theorem hasSym_of_GV (am : TriCoreISelAddressMode) (h : am.GV.isSome) :
    am.hasSymbolicDisplacement = true := by
  simp [TriCoreISelAddressMode.hasSymbolicDisplacement, h]

/-- No call to MatchAddress ever writes the CP, ES, JT, BlockAddr or Align
fields of the addressing mode. -/
theorem MatchAddress_sameSym (mvz : SDValue → Int → Bool) :
    ∀ (N : SDValue) (am : TriCoreISelAddressMode),
      sameSym am (MatchAddress mvz N am).1 := by
  intro N
  induction N with
  | const v => intro am; exact ⟨rfl, rfl, rfl, rfl, rfl⟩
  | wrapper op =>
      intro am
      simp only [MatchAddress]
      cases hw : (MatchWrapper op am).2 with
      | false =>
          simpa using MatchWrapper_sameSym op am
      | true =>
          simp only [hw, Bool.true_eq_false, if_false]
          exact sameSym_trans (MatchWrapper_sameSym op am)
            (MatchAddressBase_sameSym _ _)
  | frameIndex fi =>
      intro am
      simp only [MatchAddress]
      split
      · exact ⟨rfl, rfl, rfl, rfl, rfl⟩
      · exact MatchAddressBase_sameSym _ _
  | add l r ihl ihr =>
      intro am
      simp only [MatchAddress]
      cases h1 : (MatchAddress mvz l am).2 with
      | false =>
          simp only [h1, Bool.false_eq_true, if_false]
          cases h2 : (MatchAddress mvz r (MatchAddress mvz l am).1).2 with
          | false =>
              simp only [h2, and_self, if_true]
              exact sameSym_trans (ihl am) (ihr _)
          | true =>
              simp only [h2, Bool.true_eq_false, and_false, if_false]
              cases h3 : (MatchAddress mvz r am).2 with
              | false =>
                  simp only [h3, Bool.false_eq_true, if_false]
                  cases h4 : (MatchAddress mvz l (MatchAddress mvz r am).1).2 with
                  | false =>
                      simp only [h4, and_self, if_true]
                      exact sameSym_trans (ihr am) (ihl _)
                  | true =>
                      simp only [h4, Bool.true_eq_false, and_false, if_false]
                      exact MatchAddressBase_sameSym _ _
              | true =>
                  simp only [h3, Bool.true_eq_false, false_and, if_false, if_true]
                  exact MatchAddressBase_sameSym _ _
      | true =>
          simp only [h1, Bool.true_eq_false, false_and, if_false, if_true]
          cases h3 : (MatchAddress mvz r am).2 with
          | false =>
              simp only [h3, Bool.false_eq_true, if_false]
              cases h4 : (MatchAddress mvz l (MatchAddress mvz r am).1).2 with
              | false =>
                  simp only [h4, and_self, if_true]
                  exact sameSym_trans (ihr am) (ihl _)
              | true =>
                  simp only [h4, Bool.true_eq_false, and_false, if_false]
                  exact MatchAddressBase_sameSym _ _
          | true =>
              simp only [h3, Bool.true_eq_false, false_and, if_false, if_true]
              exact MatchAddressBase_sameSym _ _
  | or l r ihl ihr =>
      intro am
      cases r with
      | const c =>
          simp only [MatchAddress]
          split
          · obtain ⟨x1, x2, x3, x4, x5⟩ := ihl am
            exact ⟨x1, x2, x3, x4, x5⟩
          · exact MatchAddressBase_sameSym _ _
      | frameIndex fi => exact MatchAddressBase_sameSym _ _
      | wrapper op => exact MatchAddressBase_sameSym _ _
      | add a b => exact MatchAddressBase_sameSym _ _
      | or a b => exact MatchAddressBase_sameSym _ _
      | other id => exact MatchAddressBase_sameSym _ _
  | other id =>
      intro am
      exact MatchAddressBase_sameSym _ _

/-- Once a global has been recorded in the mode, no further MatchAddress
call changes it: the single symbolic slot is never overwritten. -/
theorem MatchAddress_GV_some (mvz : SDValue → Int → Bool) :
    ∀ (N : SDValue) (am : TriCoreISelAddressMode),
      am.GV.isSome → (MatchAddress mvz N am).1.GV = am.GV := by
  intro N
  induction N with
  | const v => intro am _; rfl
  | wrapper op =>
      intro am hGV
      simp only [MatchAddress, MatchWrapper_symSet op am (hasSym_of_GV am hGV)]
      simp only [Bool.true_eq_false, if_false]
      exact MatchAddressBase_GV _ _
  | frameIndex fi =>
      intro am _
      simp only [MatchAddress]
      split
      · rfl
      · exact MatchAddressBase_GV _ _
  | add l r ihl ihr =>
      intro am hGV
      have hl : (MatchAddress mvz l am).1.GV = am.GV := ihl am hGV
      have hr : (MatchAddress mvz r am).1.GV = am.GV := ihr am hGV
      have hl2 : (MatchAddress mvz l am).1.GV.isSome := by rw [hl]; exact hGV
      have hr2 : (MatchAddress mvz r am).1.GV.isSome := by rw [hr]; exact hGV
      simp only [MatchAddress]
      cases h1 : (MatchAddress mvz l am).2 with
      | false =>
          simp only [h1, Bool.false_eq_true, if_false]
          cases h2 : (MatchAddress mvz r (MatchAddress mvz l am).1).2 with
          | false =>
              simp only [h2, and_self, if_true]
              rw [ihr _ hl2, hl]
          | true =>
              simp only [h2, Bool.true_eq_false, and_false, if_false]
              cases h3 : (MatchAddress mvz r am).2 with
              | false =>
                  simp only [h3, Bool.false_eq_true, if_false]
                  cases h4 : (MatchAddress mvz l (MatchAddress mvz r am).1).2 with
                  | false =>
                      simp only [h4, and_self, if_true]
                      rw [ihl _ hr2, hr]
                  | true =>
                      simp only [h4, Bool.true_eq_false, and_false, if_false]
                      exact MatchAddressBase_GV _ _
              | true =>
                  simp only [h3, Bool.true_eq_false, false_and, if_false, if_true]
                  exact MatchAddressBase_GV _ _
      | true =>
          simp only [h1, Bool.true_eq_false, false_and, if_false, if_true]
          cases h3 : (MatchAddress mvz r am).2 with
          | false =>
              simp only [h3, Bool.false_eq_true, if_false]
              cases h4 : (MatchAddress mvz l (MatchAddress mvz r am).1).2 with
              | false =>
                  simp only [h4, and_self, if_true]
                  rw [ihl _ hr2, hr]
              | true =>
                  simp only [h4, Bool.true_eq_false, and_false, if_false]
                  exact MatchAddressBase_GV _ _
          | true =>
              simp only [h3, Bool.true_eq_false, false_and, if_false, if_true]
              exact MatchAddressBase_GV _ _
  | or l r ihl ihr =>
      intro am hGV
      cases r with
      | const c =>
          simp only [MatchAddress]
          split
          · next hc =>
              exfalso
              have := ihl am hGV
              rw [hc.2.1] at this
              rw [← this] at hGV
              simp at hGV
          · exact MatchAddressBase_GV _ _
      | frameIndex fi => exact MatchAddressBase_GV _ _
      | wrapper op => exact MatchAddressBase_GV _ _
      | add a b => exact MatchAddressBase_GV _ _
      | or a b => exact MatchAddressBase_GV _ _
      | other id => exact MatchAddressBase_GV _ _
  | other id =>
      intro am _
      exact MatchAddressBase_GV _ _

theorem setBase_disp (b : SDValue) (am : TriCoreISelAddressMode) (d : Int) :
    { setBase b am with Disp := d } = setBase b { am with Disp := d } := by
  cases b <;> rfl

theorem setBase_disp_val (b : SDValue) (am : TriCoreISelAddressMode) :
    (setBase b am).Disp = am.Disp := by
  cases b <;> rfl

/-- Matching an all-constant add tree always succeeds, from any mode,
adding exactly the tree's sum to the displacement. -/
theorem constSum_match (mvz : SDValue → Int → Bool) :
    ∀ (N : SDValue) (s : Int), constSum N = some s →
      ∀ am, MatchAddress mvz N am = ({ am with Disp := am.Disp + s }, false) := by
  intro N
  induction N with
  | const v =>
      intro s hs am
      simp only [constSum, Option.some.injEq] at hs
      subst hs
      rfl
  | add l r ihl ihr =>
      intro s hs am
      cases hl : constSum l with
      | none => simp [constSum, hl] at hs
      | some a =>
          cases hr : constSum r with
          | none => simp [constSum, hl, hr] at hs
          | some b =>
              simp only [constSum, hl, hr, Option.some.injEq] at hs
              subst hs
              simp only [MatchAddress, ihl a hl am, ihr b hr]
              simp [Int.add_assoc]
  | frameIndex fi => intro s hs; simp [constSum] at hs
  | wrapper op => intro s hs; simp [constSum] at hs
  | or a b iha ihb => intro s hs; simp [constSum] at hs
  | other id => intro s hs; simp [constSum] at hs

/-- Matching a one-base add tree from any mode whose base slot is free
succeeds, records the lone non-constant leaf as the base (frame slot for
a frame index, register base otherwise) and adds exactly the constant
sum to the displacement. -/
theorem oneBase_match (mvz : SDValue → Int → Bool)
    (N b : SDValue) (s : Int) (h : OneBaseTree N b s) :
    ∀ am : TriCoreISelAddressMode,
      am.BaseType = TCBaseType.RegBase → am.BaseReg = none →
      MatchAddress mvz N am = (setBase b { am with Disp := am.Disp + s }, false) := by
  induction h with
  | base_reg id =>
      intro am hbt hbr
      simp [MatchAddress, MatchAddressBase, hbt, hbr, setBase]
  | base_fi fi =>
      intro am hbt hbr
      simp [MatchAddress, hbt, hbr, setBase]
  | addL l r bb ss c hone hc ih =>
      intro am hbt hbr
      have h1 := ih am hbt hbr
      have h2 := constSum_match mvz r c hc (setBase bb { am with Disp := am.Disp + ss })
      simp only [MatchAddress, h1, h2]
      simp only [Bool.false_eq_true, if_false, and_self, if_true]
      rw [setBase_disp_val, setBase_disp]
      simp [Int.add_assoc]
  | addR l r bb ss c hc hone ih =>
      intro am hbt hbr
      have h1 := constSum_match mvz l c hc am
      have h2 := ih { am with Disp := am.Disp + c } hbt hbr
      simp only [MatchAddress, h1, h2]
      simp only [Bool.false_eq_true, if_false, and_self, if_true]
      have : am.Disp + c + ss = am.Disp + (ss + c) := by ring
      simp [this]

example : SelectConstant true 0 = SelResult.imask 0 0 0 := by decide

example : SelectConstant true 0x38 = SelResult.imask 7 3 0 := by decide

example : imaskEval 7 3 0 = 0x38 := by decide

example : SelectConstant true 0x700000000 = SelResult.imask 0 0 3 := by decide

example : imaskEval 0 0 3 = 0x700000000 := by decide

example : SelectConstant true 0x100000038 = SelResult.fallback := by decide

example : SelectConstant false 5 = SelResult.mov 5 := by decide

example : SelectConstant false 40000 = SelResult.movu 40000 := by decide

example : SelectConstant false 0x10000 = SelResult.movh 1 := by decide

example : SelectConstant false 0 = SelResult.mov 0 := by decide

example : SelectConstant false 0x12340005 =
    SelResult.addChain AddKind.ADDsrc 0x1234 5 := by decide

example : SelectConstant false 0xFFFF8000 = SelResult.mov (-32768) := by decide

example : SelectConstant false 0x12340010 =
    SelResult.addChain AddKind.ADDrc 0x1234 16 := by decide

example : SelectConstant false 0x12341234 =
    SelResult.addChain AddKind.ADDIrlc 0x1234 0x1234 := by decide

example : SelectConstant false 0x1234FFFC =
    SelResult.addChain AddKind.ADDsrc 0x1235 0xFFFC := by decide

theorem ipow_eq : ∀ n : Nat, ipow n = 2 ^ n
  | 0 => rfl
  | n + 1 => by rw [ipow, ipow_eq n]; ring

theorem and_lo16 (n : Nat) : n &&& 0xffff = n % 65536 := by
  have : (0xffff : Nat) = 2 ^ 16 - 1 := by norm_num
  rw [this, Nat.and_pow_two_sub_one_eq_mod]

theorem and_lo32 (n : Nat) : n &&& 0xffffffff = n % 4294967296 := by
  have : (0xffffffff : Nat) = 2 ^ 32 - 1 := by norm_num
  rw [this, Nat.and_pow_two_sub_one_eq_mod]

theorem and_hi16 (n : Nat) : n &&& 0xffff0000 = n / 65536 % 65536 * 65536 := by
  have h1 : (0xffff0000 : Nat) = (2 ^ 16 - 1) <<< 16 := by
    norm_num [Nat.shiftLeft_eq]
  have h2 : n / 65536 % 65536 * 65536 = ((n >>> 16) % 2 ^ 16) <<< 16 := by
    norm_num [Nat.shiftLeft_eq, Nat.shiftRight_eq_div_pow]
  rw [h1, h2]
  apply Nat.eq_of_testBit_eq
  intro i
  simp only [Nat.testBit_and, Nat.testBit_shiftLeft, Nat.testBit_two_pow_sub_one,
    Nat.testBit_mod_two_pow, Nat.testBit_shiftRight]
  by_cases h16 : 16 ≤ i
  · have he : 16 + (i - 16) = i := by omega
    by_cases h32 : i - 16 < 16
    · simp [h16, he, h32, Bool.and_comm]
    · simp [h16, he, h32]
  · simp [h16]

theorem run_setBits : ∀ p l : Fin 33, 1 ≤ l.val → p.val + l.val ≤ 32 →
    getNumSetBits ((2 ^ l.val - 1) * 2 ^ p.val) = l.val := by decide

theorem run_consec : ∀ p l : Fin 33, 1 ≤ l.val → p.val + l.val ≤ 32 →
    getNumConsecutiveOnes ((2 ^ l.val - 1) * 2 ^ p.val) = l.val := by decide

theorem run_ffs : ∀ p l : Fin 33, 1 ≤ l.val → p.val + l.val ≤ 32 →
    getFFS ((2 ^ l.val - 1) * 2 ^ p.val) = p.val + 1 := by decide

theorem run_setBits_nat (p l : Nat) (h1 : 1 ≤ l) (h2 : p + l ≤ 32) :
    getNumSetBits ((2 ^ l - 1) * 2 ^ p) = l :=
  run_setBits ⟨p, by omega⟩ ⟨l, by omega⟩ h1 h2

theorem run_consec_nat (p l : Nat) (h1 : 1 ≤ l) (h2 : p + l ≤ 32) :
    getNumConsecutiveOnes ((2 ^ l - 1) * 2 ^ p) = l :=
  run_consec ⟨p, by omega⟩ ⟨l, by omega⟩ h1 h2

theorem run_ffs_nat (p l : Nat) (h1 : 1 ≤ l) (h2 : p + l ≤ 32) :
    getFFS ((2 ^ l - 1) * 2 ^ p) = p + 1 :=
  run_ffs ⟨p, by omega⟩ ⟨l, by omega⟩ h1 h2

theorem ffsGo_le : ∀ (k f v idx : Nat), v ≠ 0 → v < 2 ^ k → k ≤ f →
    ffsGo f v idx ≤ k + idx - 1 := by
  intro k
  induction k with
  | zero =>
      intro f v idx hv hlt _
      omega
  | succ k ih =>
      intro f v idx hv hlt hkf
      cases f with
      | zero => omega
      | succ f =>
          rw [ffsGo]
          split
          · omega
          · next hodd =>
              have hv2 : v / 2 ≠ 0 := by omega
              have hlt2 : v / 2 < 2 ^ k := by
                rw [pow_succ] at hlt
                omega
              have := ih f (v / 2) (idx + 1) hv2 hlt2 (by omega)
              omega

/-- For a non-zero 32-bit value, getFFS is between 1 and 32. -/
theorem getFFS_le_32 (v : Nat) (hv : v ≠ 0) (hlt : v < 2 ^ 32) :
    getFFS v ≤ 32 := by
  rw [getFFS, if_neg hv]
  have := ffsGo_le 32 33 v 1 hv hlt (by omega)
  omega

theorem sext_eq (w n : Nat) : sext w n =
    ((n % 2 ^ w : Nat) : Int) -
      (if (n % 2 ^ w : Nat) < 2 ^ (w - 1) then (0 : Int) else 2 ^ w) := by
  simp only [sext]
  split_ifs <;> simp

/-- The hiShift amount is a 16-bit unsigned quantity and, combined with
the sign-extended low 16 bits, reconstructs the 32-bit value exactly. -/
theorem hiShift_spec (bits : Nat) (hlt : bits < 2 ^ 32) :
    0 ≤ hiShiftVal (sext 32 bits) (bits % 65536) ∧
    hiShiftVal (sext 32 bits) (bits % 65536) < 65536 ∧
    (hiShiftVal (sext 32 bits) (bits % 65536) * 65536 +
        sext 16 (bits % 65536)) % 4294967296 = (bits : Int) := by
  simp only [hiShiftVal]
  rw [Int.shiftRight_eq_div_pow]
  rw [sext_eq 32, sext_eq 16]
  have hm : bits % 2 ^ 32 = bits := Nat.mod_eq_of_lt hlt
  have hm2 : bits % 65536 % 2 ^ 16 = bits % 65536 := by omega
  rw [hm, hm2]
  norm_num
  split_ifs <;> omega

theorem sext_lo (w n : Nat) (h1 : n < 2 ^ (w - 1)) (h2 : n < 2 ^ w) :
    sext w n = (n : Int) := by
  simp [sext, Nat.mod_eq_of_lt h2, h1]

theorem sext_hi (w n : Nat) (h1 : 2 ^ (w - 1) ≤ n) (h2 : n < 2 ^ w) :
    sext w n = (n : Int) - 2 ^ w := by
  have hc : ¬ n < 2 ^ (w - 1) := by omega
  simp [sext, Nat.mod_eq_of_lt h2, hc]

/-- C1: for every address expression built purely from chained ISD::ADD
nodes over exactly one non-constant leaf (a register-valued node or a
frame-index node) together with any number of integer-constant leaves, in
any associative grouping, MatchAddress starting from a fresh mode
succeeds, records the lone leaf as the single base (frame-slot base for a
frame index, register base otherwise), and leaves the displacement equal
to the exact sum of the sign-extended values of all constant leaves. -/
theorem c1_add_chain_single_base (mvz : SDValue → Int → Bool)
    (N b : SDValue) (s : Int) (h : OneBaseTree N b s) :
    (MatchAddress mvz N initAM).2 = false ∧
    (MatchAddress mvz N initAM).1.Disp = s ∧
    (∀ fi : Int, b = SDValue.frameIndex fi →
      (MatchAddress mvz N initAM).1.BaseType = TCBaseType.FrameIndexBase ∧
      (MatchAddress mvz N initAM).1.BaseFrameIndex = fi) ∧
    (∀ id : Nat, b = SDValue.other id →
      (MatchAddress mvz N initAM).1.BaseType = TCBaseType.RegBase ∧
      (MatchAddress mvz N initAM).1.BaseReg = some b) := by
  have hm := oneBase_match mvz N b s h initAM rfl rfl
  rw [hm]
  refine ⟨rfl, ?_, ?_, ?_⟩
  · rw [setBase_disp_val]
    simp [initAM]
  · intro fi hb
    subst hb
    simp [setBase]
  · intro id hb
    subst hb
    simp [setBase]

theorem c1_add_chain_single_base_witness :
    (MatchAddress (fun _ _ => false)
      (SDValue.add (SDValue.const 4)
        (SDValue.add (SDValue.other 7) (SDValue.const (-2)))) initAM).2 = false ∧
    (MatchAddress (fun _ _ => false)
      (SDValue.add (SDValue.const 4)
        (SDValue.add (SDValue.other 7) (SDValue.const (-2)))) initAM).1.Disp = 2 ∧
    (MatchAddress (fun _ _ => false)
      (SDValue.add (SDValue.const 4)
        (SDValue.add (SDValue.other 7) (SDValue.const (-2)))) initAM).1.BaseReg =
      some (SDValue.other 7) := by
  have hT : OneBaseTree
      (SDValue.add (SDValue.const 4)
        (SDValue.add (SDValue.other 7) (SDValue.const (-2))))
      (SDValue.other 7) 2 := by
    have h1 : OneBaseTree (SDValue.add (SDValue.other 7) (SDValue.const (-2)))
        (SDValue.other 7) (0 + (-2)) :=
      OneBaseTree.addL _ _ _ _ _ (OneBaseTree.base_reg 7) rfl
    have h2 := OneBaseTree.addR (SDValue.const 4)
      (SDValue.add (SDValue.other 7) (SDValue.const (-2)))
      (SDValue.other 7) (0 + (-2)) 4 rfl h1
    norm_num at h2
    exact h2
  have hc := c1_add_chain_single_base (fun _ _ => false) _ _ _ hT
  exact ⟨hc.1, hc.2.1, (hc.2.2.2 7 rfl).2⟩

/-- C5: whenever MatchAddress reports failure, the addressing mode is
exactly its value at entry; no partial mutation of the base slot,
displacement or symbolic fields survives a failed attempt, including
failures inside the two-ordering ADD retry and the speculative OR fold. -/
theorem c5_failure_no_mutation (mvz : SDValue → Int → Bool) (N : SDValue)
    (am : TriCoreISelAddressMode) (h : (MatchAddress mvz N am).2 = true) :
    (MatchAddress mvz N am).1 = am :=
  MatchAddress_fail_eq mvz N am h

theorem c5_failure_no_mutation_witness :
    (MatchAddress (fun _ _ => false) (SDValue.other 0)
      { initAM with BaseReg := some (SDValue.other 5) }).2 = true ∧
    (MatchAddress (fun _ _ => false) (SDValue.other 0)
      { initAM with BaseReg := some (SDValue.other 5) }).1 =
      { initAM with BaseReg := some (SDValue.other 5) } :=
  ⟨by decide, c5_failure_no_mutation _ _ _ (by decide)⟩

/-- C6 counterexample: a mode that already carries a symbolic reference
(GV set) but whose base slot is free. MatchAddress on a wrapper node then
SUCCEEDS (returns false, the C++ success value), the wrapper node being
claimed whole as the register base, refuting the claim that the match of
the wrapper node fails. -/
theorem c6_counterexample :
    ({ initAM with GV := some 0 } :
        TriCoreISelAddressMode).hasSymbolicDisplacement = true ∧
    (MatchAddress (fun _ _ => false) (SDValue.wrapper (WrappedOp.otherSym 0))
      { initAM with GV := some 0 }).2 = false := by
  constructor
  · decide
  · decide

/-- C6 amended: if the mode already carries a symbolic reference when a
wrapper node is visited, MatchWrapper fails without mutation and no
symbol is folded; MatchAddress then degenerates to MatchAddressBase on
the whole wrapper node (so it fails exactly when the base slot is also
occupied), and a recorded global is never changed by any further match,
so at most one symbolic term is ever admitted per address. -/
theorem c6_wrapper_blocked (mvz : SDValue → Int → Bool) (op : WrappedOp)
    (am : TriCoreISelAddressMode) (N : SDValue)
    (h : am.hasSymbolicDisplacement = true) :
    MatchWrapper op am = (am, true) ∧
    MatchAddress mvz (SDValue.wrapper op) am =
      MatchAddressBase (SDValue.wrapper op) am ∧
    (am.GV.isSome → (MatchAddress mvz N am).1.GV = am.GV) := by
  refine ⟨MatchWrapper_symSet op am h, ?_,
    fun hg => MatchAddress_GV_some mvz N am hg⟩
  simp only [MatchAddress, MatchWrapper_symSet op am h]
  simp

theorem c6_wrapper_blocked_witness :
    MatchWrapper (WrappedOp.otherSym 1) { initAM with GV := some 3 } =
      ({ initAM with GV := some 3 }, true) ∧
    (MatchAddress (fun _ _ => false) (SDValue.const 2)
      { initAM with GV := some 3 }).1.GV = some 3 := by
  have hc := c6_wrapper_blocked (fun _ _ => false) (WrappedOp.otherSym 1)
    { initAM with GV := some 3 } (SDValue.const 2) (by decide)
  exact ⟨hc.1, hc.2.2 (by decide)⟩

/-- C9 counterexample: a wrapper whose operand is not a global-value
reference, visited in a mode that already carries a symbolic reference:
MatchWrapper reports FAILURE (returns true), refuting the claim that it
reports success for every such wrapper. -/
theorem c9_counterexample :
    (MatchWrapper (WrappedOp.otherSym 0) { initAM with GV := some 0 }).2 =
      true := by decide

/-- C9 amended: when the mode carries no symbolic reference, MatchWrapper
on a wrapper whose operand is not a global-value reference succeeds while
leaving the mode completely unchanged (the wrapped symbol's contribution
is silently dropped); the CP, ES, JT and BlockAddr fields are never
written by any matcher operation; and in every mode whose CP, ES and JT
fields still hold their initial values (in particular every mode
reachable from the fresh mode), hasSymbolicDisplacement is equivalent to
GV being non-null. -/
theorem c9_non_global_dropped (mvz : SDValue → Int → Bool) (id : Nat)
    (am : TriCoreISelAddressMode) (N : SDValue) :
    (am.hasSymbolicDisplacement = false →
      MatchWrapper (WrappedOp.otherSym id) am = (am, false)) ∧
    ((MatchAddress mvz N am).1.CP = am.CP ∧
     (MatchAddress mvz N am).1.ES = am.ES ∧
     (MatchAddress mvz N am).1.JT = am.JT ∧
     (MatchAddress mvz N am).1.BlockAddr = am.BlockAddr) ∧
    (am.CP = none → am.ES = none → am.JT = -1 →
      (am.hasSymbolicDisplacement = true ↔ am.GV ≠ none)) := by
  refine ⟨?_, ?_, ?_⟩
  · intro h
    unfold MatchWrapper
    simp [h]
  · obtain ⟨x1, x2, x3, x4, x5⟩ := MatchAddress_sameSym mvz N am
    exact ⟨x1, x2, x3, x4⟩
  · intro h1 h2 h3
    simp only [TriCoreISelAddressMode.hasSymbolicDisplacement, h1, h2, h3]
    cases am.GV <;> simp

theorem c9_non_global_dropped_witness :
    MatchWrapper (WrappedOp.otherSym 2) initAM = (initAM, false) ∧
    (MatchAddress (fun _ _ => false) (SDValue.const 3)
      { initAM with GV := some 4 }).1.CP = none ∧
    (({ initAM with GV := some 4 } :
        TriCoreISelAddressMode).hasSymbolicDisplacement = true ↔
      ({ initAM with GV := some 4 } :
        TriCoreISelAddressMode).GV ≠ none) := by
  have h1 := c9_non_global_dropped (fun _ _ => false) 2 initAM (SDValue.const 3)
  have h2 := c9_non_global_dropped (fun _ _ => false) 2
    { initAM with GV := some 4 } (SDValue.const 3)
  exact ⟨h1.1 (by decide), h2.2.1.1, h2.2.2 rfl rfl rfl⟩

/-- C4: when MatchAddress visits a bitwise-or node, the constant is
folded into the displacement exactly when the right operand is a
constant, matching the left operand alone succeeds, the resulting mode
carries no symbolic reference, and the known-zero-bits oracle accepts; in
every other case the mode is restored to its pre-attempt snapshot and
matching continues with MatchAddressBase on the whole node. Stated for
entry modes whose CP, ES and JT fields hold their initial values, where
carrying no symbolic reference is exactly the GV test the code makes. -/
theorem c4_or_fold_characterization (mvz : SDValue → Int → Bool)
    (l : SDValue) (c : Int) (r : SDValue) (am : TriCoreISelAddressMode)
    (hCP : am.CP = none) (hES : am.ES = none) (hJT : am.JT = -1) :
    (((MatchAddress mvz l am).2 = false ∧
      (MatchAddress mvz l am).1.hasSymbolicDisplacement = false ∧
      mvz l c = true) →
      MatchAddress mvz (SDValue.or l (SDValue.const c)) am =
        ({ (MatchAddress mvz l am).1 with
            Disp := (MatchAddress mvz l am).1.Disp + c }, false)) ∧
    ((¬ ((MatchAddress mvz l am).2 = false ∧
      (MatchAddress mvz l am).1.hasSymbolicDisplacement = false ∧
      mvz l c = true)) →
      MatchAddress mvz (SDValue.or l (SDValue.const c)) am =
        MatchAddressBase (SDValue.or l (SDValue.const c)) am) ∧
    ((∀ c2 : Int, r ≠ SDValue.const c2) →
      MatchAddress mvz (SDValue.or l r) am =
        MatchAddressBase (SDValue.or l r) am) := by
  obtain ⟨x1, x2, x3, x4, x5⟩ := MatchAddress_sameSym mvz l am
  have hiff : (MatchAddress mvz l am).1.hasSymbolicDisplacement = false ↔
      (MatchAddress mvz l am).1.GV = none := by
    simp only [TriCoreISelAddressMode.hasSymbolicDisplacement, x1, x2, x3,
      hCP, hES, hJT]
    cases (MatchAddress mvz l am).1.GV <;> simp
  refine ⟨?_, ?_, ?_⟩
  · rintro ⟨h1, h2, h3⟩
    rw [hiff] at h2
    simp only [MatchAddress]
    simp [h1, h2, h3]
  · intro hn
    simp only [MatchAddress]
    rw [if_neg]
    intro hcond
    exact hn ⟨hcond.1, hiff.mpr hcond.2.1, hcond.2.2⟩
  · intro hr
    cases r with
    | const c2 => exact absurd rfl (hr c2)
    | frameIndex fi => simp only [MatchAddress]
    | wrapper op => simp only [MatchAddress]
    | add a b => simp only [MatchAddress]
    | or a b => simp only [MatchAddress]
    | other id2 => simp only [MatchAddress]

theorem c4_or_fold_characterization_witness :
    MatchAddress (fun n m => decide (n = SDValue.other 4 ∧ m = 3))
      (SDValue.or (SDValue.other 4) (SDValue.const 3)) initAM =
      ({ initAM with BaseReg := some (SDValue.other 4), Disp := 3 }, false) ∧
    MatchAddress (fun _ _ => false)
      (SDValue.or (SDValue.other 4) (SDValue.const 3)) initAM =
      MatchAddressBase (SDValue.or (SDValue.other 4) (SDValue.const 3))
        initAM := by
  have h1 := (c4_or_fold_characterization
      (fun n m => decide (n = SDValue.other 4 ∧ m = 3)) (SDValue.other 4) 3
      (SDValue.const 3) initAM rfl rfl rfl).1 (by decide)
  have h2 := (c4_or_fold_characterization (fun _ _ => false)
      (SDValue.other 4) 3 (SDValue.const 3) initAM rfl rfl rfl).2.1 (by decide)
  constructor
  · rw [h1]
    decide
  · exact h2

/-- C2: for every 64-bit constant in which exactly one 32-bit half is
non-zero and that half is a single contiguous run of set bits (the run of
len bits starting at bit pos), with len at most 4 for the low half or
pos plus len at most 31 for the high half, SelectConstant emits exactly
one IMASKrcpw node with operands value two to the len minus one, position
pos, width zero in the low-half case, and value zero, position pos, width
len in the high-half case, and evaluating that masked-insert instruction
reproduces the original 64-bit value. -/
theorem c2_imask_contiguous_run :
    (∀ pos len : Nat, 1 ≤ len → len ≤ 4 → pos + len ≤ 32 →
      SelectConstant true ((2 ^ len - 1) * 2 ^ pos) =
        SelResult.imask (2 ^ len - 1) pos 0 ∧
      imaskEval (2 ^ len - 1) pos 0 = (2 ^ len - 1) * 2 ^ pos) ∧
    (∀ pos len : Nat, 1 ≤ len → pos + len ≤ 31 →
      SelectConstant true ((2 ^ len - 1) * 2 ^ pos * 2 ^ 32) =
        SelResult.imask 0 pos len ∧
      imaskEval 0 pos len = (2 ^ len - 1) * 2 ^ pos * 2 ^ 32) := by
  constructor
  · intro pos len h1 h4 h32
    have he : (2 ^ len - 1) * 2 ^ pos = 2 ^ (len + pos) - 2 ^ pos := by
      rw [Nat.sub_mul, one_mul, ← pow_add]
    have hple : (2 : Nat) ^ (len + pos) ≤ 2 ^ 32 :=
      Nat.pow_le_pow_right (by norm_num) (by omega)
    have hp : 0 < (2 : Nat) ^ pos := pow_pos (by norm_num) pos
    have hvlt : (2 ^ len - 1) * 2 ^ pos < 2 ^ 32 := by omega
    have h2l : 2 ≤ (2 : Nat) ^ len := by
      calc (2 : Nat) = 2 ^ 1 := rfl
        _ ≤ 2 ^ len := Nat.pow_le_pow_right (by norm_num) h1
    have hne : (2 ^ len - 1) * 2 ^ pos ≠ 0 :=
      Nat.mul_ne_zero (by omega) (by omega)
    have e1 : ((2 ^ len - 1) * 2 ^ pos) &&& 0xffffffff =
        (2 ^ len - 1) * 2 ^ pos := by
      rw [and_lo32]
      omega
    have e2 : ((2 ^ len - 1) * 2 ^ pos) >>> 32 = 0 := by
      rw [Nat.shiftRight_eq_div_pow]
      exact Nat.div_eq_of_lt hvlt
    have e3 : sext 64 ((2 ^ len - 1) * 2 ^ pos) =
        (((2 ^ len - 1) * 2 ^ pos : Nat) : Int) :=
      sext_lo 64 _ (lt_of_lt_of_le hvlt (by norm_num))
        (lt_of_lt_of_le hvlt (by norm_num))
    have e4 := run_ffs_nat pos len h1 h32
    have e5 := run_setBits_nat pos len h1 h32
    have e6 := run_consec_nat pos len h1 h32
    constructor
    · simp only [SelectConstant, if_true, selectI64, e1, e2, e3, e4, e5, e6]
      rw [if_neg hne]
      rw [if_neg]
      · rw [if_pos ⟨trivial, hne⟩]
        rw [if_neg (fun hc => hc rfl), if_neg (by omega)]
        rw [ipow_eq]
        norm_num
      · rintro (hneg | hand)
        · exact absurd hneg (not_lt.mpr (Int.natCast_nonneg _))
        · exact hand.1 rfl
    · simp only [imaskEval, Nat.shiftLeft_eq]
      norm_num
      omega
  · intro pos len h1 h31
    have he : (2 ^ len - 1) * 2 ^ pos = 2 ^ (len + pos) - 2 ^ pos := by
      rw [Nat.sub_mul, one_mul, ← pow_add]
    have hple : (2 : Nat) ^ (len + pos) ≤ 2 ^ 31 :=
      Nat.pow_le_pow_right (by norm_num) (by omega)
    have hp : 0 < (2 : Nat) ^ pos := pow_pos (by norm_num) pos
    have hblt : (2 ^ len - 1) * 2 ^ pos < 2 ^ 31 := by omega
    have h2l : 2 ≤ (2 : Nat) ^ len := by
      calc (2 : Nat) = 2 ^ 1 := rfl
        _ ≤ 2 ^ len := Nat.pow_le_pow_right (by norm_num) h1
    have hbne : (2 ^ len - 1) * 2 ^ pos ≠ 0 :=
      Nat.mul_ne_zero (by omega) (by omega)
    have hvne : (2 ^ len - 1) * 2 ^ pos * 2 ^ 32 ≠ 0 :=
      Nat.mul_ne_zero hbne (by norm_num)
    have hvlt : (2 ^ len - 1) * 2 ^ pos * 2 ^ 32 < 2 ^ 63 := by
      have := (Nat.mul_lt_mul_right
        (show 0 < (2 : Nat) ^ 32 by norm_num)).mpr hblt
      calc (2 ^ len - 1) * 2 ^ pos * 2 ^ 32 < 2 ^ 31 * 2 ^ 32 := this
        _ = 2 ^ 63 := by norm_num
    have e1 : ((2 ^ len - 1) * 2 ^ pos * 2 ^ 32) &&& 0xffffffff = 0 := by
      rw [and_lo32]
      have : (4294967296 : Nat) = 2 ^ 32 := by norm_num
      rw [this]
      exact Nat.mul_mod_left _ _
    have e2 : ((2 ^ len - 1) * 2 ^ pos * 2 ^ 32) >>> 32 =
        (2 ^ len - 1) * 2 ^ pos := by
      rw [Nat.shiftRight_eq_div_pow]
      exact Nat.mul_div_cancel _ (by norm_num)
    have e3 : sext 64 ((2 ^ len - 1) * 2 ^ pos * 2 ^ 32) =
        (((2 ^ len - 1) * 2 ^ pos * 2 ^ 32 : Nat) : Int) :=
      sext_lo 64 _ (by norm_num at hvlt ⊢; omega)
        (lt_of_lt_of_le hvlt (by norm_num))
    have e4 := run_ffs_nat pos len h1 (by omega)
    have e5 := run_setBits_nat pos len h1 (by omega)
    have e6 := run_consec_nat pos len h1 (by omega)
    constructor
    · simp only [SelectConstant, if_true, selectI64, e1, e2, e3, e4, e5, e6]
      rw [if_neg hvne]
      rw [if_neg]
      · rw [if_neg]
        · rw [if_pos ⟨hbne, trivial⟩]
          rw [if_neg (fun hc => hc rfl), if_neg (by omega)]
          norm_num
        · rintro hc
          exact hbne hc.1
      · rintro (hneg | hand)
        · exact absurd hneg (not_lt.mpr (Int.natCast_nonneg _))
        · exact hand.2 rfl
    · simp only [imaskEval, Nat.shiftLeft_eq, Nat.zero_shiftLeft]
      norm_num
      omega

theorem c2_imask_contiguous_run_witness :
    SelectConstant true 0x38 = SelResult.imask 7 3 0 ∧
    imaskEval 7 3 0 = 0x38 ∧
    SelectConstant true 0x700000000 = SelResult.imask 0 0 3 ∧
    imaskEval 0 0 3 = 0x700000000 := by
  have hlo := c2_imask_contiguous_run.1 3 3 (by norm_num) (by norm_num)
    (by norm_num)
  have hhi := c2_imask_contiguous_run.2 0 3 (by norm_num) (by norm_num)
  norm_num at hlo hhi
  exact ⟨hlo.1, hlo.2, hhi.1, hhi.2⟩

theorem selectNarrow_no_imask (ImmVal : Nat) (ImmSVal : Int)
    (v p w : Nat) : selectNarrow ImmVal ImmSVal ≠ SelResult.imask v p w := by
  simp only [selectNarrow]
  split_ifs <;> simp

/-- C3: every IMASKrcpw node SelectConstant creates carries a position in
the range zero to 31 and a width in the range zero to 31 with position
plus width at most 31, and a value operand that fits the 4-bit field; an
encoding with position plus width above 31 is never emitted. -/
theorem c3_imask_fields_legal (isI64 : Bool) (bits : Nat)
    (hlt : bits < 2 ^ 64) (v p w : Nat)
    (h : SelectConstant isI64 bits = SelResult.imask v p w) :
    v ≤ 15 ∧ p ≤ 31 ∧ w ≤ 31 ∧ p + w ≤ 31 := by
  cases isI64 with
  | false =>
      simp only [SelectConstant, Bool.false_eq_true, if_false] at h
      exact absurd h (selectNarrow_no_imask _ _ v p w)
  | true =>
      simp only [SelectConstant, if_true, selectI64] at h
      split_ifs at h with hz hcond hlow hns hc4 hhigh hns2 hpw
      · injection h with hv hp hw
        omega
      · injection h with hv hp hw
        have hv4 : (2 : Nat) ^ getNumConsecutiveOnes (bits &&& 4294967295) ≤
            2 ^ 4 := Nat.pow_le_pow_right (by norm_num) (by omega)
        have hffs : getFFS (bits &&& 4294967295) ≤ 32 := by
          apply getFFS_le_32 _ hlow.2
          rw [and_lo32]
          exact Nat.mod_lt _ (by norm_num)
        rw [ipow_eq] at hv
        omega
      · injection h with hv hp hw
        omega
      · exact absurd h (selectNarrow_no_imask _ _ v p w)

theorem c3_imask_fields_legal_witness :
    SelectConstant true 0x38 = SelResult.imask 7 3 0 ∧
    (7 ≤ 15 ∧ 3 ≤ 31 ∧ 0 ≤ 31 ∧ 3 + 0 ≤ 31) :=
  ⟨by decide,
    c3_imask_fields_legal true 0x38 (by norm_num) 7 3 0 (by decide)⟩

/-- C7 counterexample: for the all-zero 32-bit constant, whose low 16
bits are zero, SelectConstant emits a signed-move MOVrlc with operand 0,
not a move-high MOVHrlc, refuting the claim for that value. -/
theorem c7_counterexample :
    SelectConstant false 0 = SelResult.mov 0 ∧
    SelectConstant false 0 ≠ SelResult.movh 0 := by
  constructor
  · decide
  · decide

/-- C7 amended: for every 32-bit constant whose low 16 bits are zero and
which is not the all-zero value, SelectConstant emits a single move-high
MOVHrlc whose immediate equals the value's high 16 bits; the all-zero
value instead takes the MOVrlc branch with immediate zero (see the
counterexample). -/
theorem c7_movh_low_zero (bits : Nat) (hlt : bits < 2 ^ 32)
    (hlo : bits % 65536 = 0) (hnz : bits ≠ 0) :
    SelectConstant false bits = SelResult.movh ((bits / 65536 : Nat) : Int) := by
  have hImmLo : bits &&& 0xffff = 0 := by rw [and_lo16]; omega
  have hImmHi : bits &&& 0xffff0000 = bits := by rw [and_hi16]; omega
  simp only [SelectConstant, Bool.false_eq_true, if_false, selectNarrow,
    hImmLo, hImmHi]
  rw [if_neg (fun hc => hc.2 rfl)]
  rw [if_pos ⟨hnz, trivial⟩]
  congr 1
  simp only [hiShiftVal]
  rw [Int.shiftRight_eq_div_pow, sext_eq 32, sext_eq 16]
  norm_num
  have hq : bits / 65536 < 65536 := by omega
  split_ifs <;> omega

theorem c7_movh_low_zero_witness :
    SelectConstant false 0x10000 = SelResult.movh 1 := by
  have := c7_movh_low_zero 0x10000 (by norm_num) (by norm_num) (by norm_num)
  norm_num at this
  exact this

/-- C8: for every 32-bit constant with zero high 16 bits and low 16 bits
below 32768 (including zero), SelectConstant emits a single signed-move
MOVrlc carrying the exact value; for low 16 bits in the range 32768 to
65535 it emits a single unsigned-move MOVUrlc carrying the exact value. -/
theorem c8_narrow_hi_zero (bits : Nat) (hlt : bits < 65536) :
    (bits < 32768 → SelectConstant false bits = SelResult.mov bits) ∧
    (32768 ≤ bits → SelectConstant false bits = SelResult.movu bits) := by
  have hImmLo : bits &&& 0xffff = bits := by rw [and_lo16]; omega
  have hImmHi : bits &&& 0xffff0000 = 0 := by rw [and_hi16]; omega
  have hs : sext 32 bits = (bits : Int) := by
    rw [sext_eq 32]
    have : bits % 2 ^ 32 = bits := by omega
    rw [this, if_pos (by omega)]
    norm_num
  constructor
  · intro h32
    by_cases hz : bits = 0
    · subst hz
      decide
    · simp only [SelectConstant, Bool.false_eq_true, if_false, selectNarrow,
        hImmLo, hImmHi, hs]
      rw [if_pos ⟨trivial, hz⟩]
      rw [if_pos ⟨Int.natCast_nonneg bits, by exact_mod_cast h32⟩]
  · intro h32
    have hz : bits ≠ 0 := by omega
    simp only [SelectConstant, Bool.false_eq_true, if_false, selectNarrow,
      hImmLo, hImmHi, hs]
    rw [if_pos ⟨trivial, hz⟩]
    rw [if_neg (fun hc => absurd hc.2 (by exact_mod_cast not_lt.mpr h32))]
    rw [if_pos ⟨by exact_mod_cast h32, by exact_mod_cast hlt⟩]

theorem c8_narrow_hi_zero_witness :
    SelectConstant false 5 = SelResult.mov 5 ∧
    SelectConstant false 40000 = SelResult.movu 40000 := by
  constructor
  · exact (c8_narrow_hi_zero 5 (by norm_num)).1 (by norm_num)
  · exact (c8_narrow_hi_zero 40000 (by norm_num)).2 (by norm_num)

/-- C10: for every 32-bit constant, the computed move-high amount lies in
the unsigned 16-bit range and, multiplied by two to the 16 and combined
with the sign-extended low 16 bits, reconstructs the original value
modulo two to the 32; and every MOVHrlc emission (the move-high branch
and all three move-high-plus-add chains) carries exactly that amount. -/
theorem c10_hishift_reconstruction (bits : Nat) (hlt : bits < 2 ^ 32) :
    0 ≤ hiShiftVal (sext 32 bits) (bits &&& 0xffff) ∧
    hiShiftVal (sext 32 bits) (bits &&& 0xffff) < 65536 ∧
    (hiShiftVal (sext 32 bits) (bits &&& 0xffff) * 65536 +
        sext 16 (bits % 65536)) % 4294967296 = (bits : Int) ∧
    (∀ hi : Int, SelectConstant false bits = SelResult.movh hi →
      hi = hiShiftVal (sext 32 bits) (bits &&& 0xffff)) ∧
    (∀ (k : AddKind) (hi lo : Int),
      SelectConstant false bits = SelResult.addChain k hi lo →
      hi = hiShiftVal (sext 32 bits) (bits &&& 0xffff)) := by
  rw [and_lo16]
  have hs := hiShift_spec bits hlt
  refine ⟨hs.1, hs.2.1, hs.2.2, ?_, ?_⟩
  · intro hi h
    simp only [SelectConstant, Bool.false_eq_true, if_false, selectNarrow,
      and_lo16] at h
    split_ifs at h <;> injection h with h1
    exact h1.symm
  · intro k hi lo h
    simp only [SelectConstant, Bool.false_eq_true, if_false, selectNarrow,
      and_lo16] at h
    split_ifs at h <;> injection h with h1 h2 h3
    all_goals exact h2.symm

theorem c10_hishift_reconstruction_witness :
    SelectConstant false 0x12340005 =
      SelResult.addChain AddKind.ADDsrc 0x1234 5 ∧
    0x1234 = hiShiftVal (sext 32 0x12340005) (0x12340005 &&& 0xffff) ∧
    0 ≤ hiShiftVal (sext 32 0x12340005) (0x12340005 &&& 0xffff) ∧
    hiShiftVal (sext 32 0x12340005) (0x12340005 &&& 0xffff) < 65536 := by
  have hc := c10_hishift_reconstruction 0x12340005 (by norm_num)
  exact ⟨by decide, hc.2.2.2.2 AddKind.ADDsrc 0x1234 5 (by decide), hc.1, hc.2.1⟩

end TriCore
